import Mathlib

/-!
Verification of the v3 incident-loading pipeline
(`scripts/load_incidents_v3.py`).

The pipeline merges several independently sorted CSV extracts on a join
column, groups the merged rows by join id, transforms each group into a
nested record object and (per the design) delivers it to a remote store.

Shallow embedding conventions:
  * a CSV row is a dictionary from column name to string value; where a
    component only reads the join column we abstract the dictionary access
    `line[join_col]` into a projection `joinOf : Row → String`;
  * file handles and readers are modelled by passing each file as a pair
    of its source name and its parsed list of rows, in file order;
  * Python exceptions are modelled with `Except PyErr`;
  * lexical string order is the order on `String`.
-/

set_option maxRecDepth 10000

attribute [local semireducible] Rat.mul Rat.add Rat.sub Rat.inv Rat.ofScientific

namespace Driver

/-- One open source inside the merge loop: the source name (the dict key of
`lines` and `readers`), the current row `lines[key]`, and the rows the
reader `readers[key]` has not yet produced. -/
structure Entry (Row : Type) where
  key : String
  cur : Row
  rest : List Row
deriving DecidableEq

variable {Row : Type}

/-- Python 2 compares strings lexicographically. `strMin` computes the
minimum of two strings on their character lists (so that it evaluates by
kernel reduction) and agrees with the minimum of the lexical order on
`String` (`strMin_eq_min`). -/
def strMin (a b : String) : String := if a.data ≤ b.data then a else b

theorem strMin_eq_min (a b : String) : strMin a b = min a b := by
  rw [strMin, min_def]
  by_cases h : a.data ≤ b.data
  · rw [if_pos h, if_pos (String.le_iff_toList_le.mpr h)]
  · rw [if_neg h, if_neg fun hc => h (String.le_iff_toList_le.mp hc)]

/-- Python `min(...)` over the nonempty collection of current join ids
(line 51 of the script): minimum of `a` and the elements of `l`. -/
def idsMin (a : String) (l : List String) : String := l.foldl strMin a

theorem idsMin_eq_foldl_min (a : String) (l : List String) :
    idsMin a l = l.foldl min a := by
  unfold idsMin
  induction l generalizing a with
  | nil => rfl
  | cons b bs ih => rw [List.foldl_cons, List.foldl_cons, strMin_eq_min, ih]

/-- The inner `while line[join_col] == join_id` loop (lines 54 to 63) for a
single source: yield `(join_id, key, line)` while the current row matches
`m`, advancing the reader; returns the yielded triples together with the
state of the source afterwards (`none` when the reader was exhausted and
the source is removed from consideration). -/
def consumeRun (joinOf : Row → String) (m key : String) :
    Row → List Row → List (String × String × Row) × Option (Row × List Row)
  | cur, rest =>
    if joinOf cur = m then
      match rest with
      | [] => ([(m, key, cur)], none)
      | r :: rs =>
        let p := consumeRun joinOf m key r rs
        ((m, key, cur) :: p.1, p.2)
    else ([], some (cur, rest))

/-- The `for key in lines.keys()` pass (lines 52 to 63): run `consumeRun`
on every open source in turn (the key snapshot of a Python 2 dict), keeping
the sources that are not exhausted. -/
def stepAll (joinOf : Row → String) (m : String) :
    List (Entry Row) → List (String × String × Row) × List (Entry Row)
  | [] => ([], [])
  | e :: es =>
    let p := consumeRun joinOf m e.key e.cur e.rest
    let q := stepAll joinOf m es
    match p.2 with
    | none => (p.1 ++ q.1, q.2)
    | some (c, r) => (p.1 ++ q.1, ⟨e.key, c, r⟩ :: q.2)

/-- Number of rows a source still holds (current row plus unread rows). -/
def streamLen (e : Entry Row) : Nat := 1 + e.rest.length

/-- Total number of rows held by the open sources. -/
def stateSize (es : List (Entry Row)) : Nat := (es.map streamLen).sum

/-- Rows still held by the after-state of `consumeRun`. -/
def restSize : Option (Row × List Row) → Nat
  | none => 0
  | some (_, r) => 1 + r.length

theorem consumeRun_size (joinOf : Row → String) (m key : String) :
    ∀ (rest : List Row) (cur : Row),
      (consumeRun joinOf m key cur rest).1.length +
        restSize (consumeRun joinOf m key cur rest).2 = 1 + rest.length := by
  intro rest
  induction rest with
  | nil =>
    intro cur
    by_cases h : joinOf cur = m <;> simp [consumeRun, h, restSize]
  | cons r rs ih =>
    intro cur
    by_cases h : joinOf cur = m
    · have hih := ih r
      simp only [consumeRun, h, eq_self_iff_true, if_true, List.length_cons]
      omega
    · simp [consumeRun, h, restSize]

theorem consumeRun_pos (joinOf : Row → String) (m key : String)
    (cur : Row) (rest : List Row) (h : joinOf cur = m) :
    0 < (consumeRun joinOf m key cur rest).1.length := by
  cases rest <;> simp [consumeRun, h]

theorem stepAll_size (joinOf : Row → String) (m : String) :
    ∀ es : List (Entry Row),
      stateSize (stepAll joinOf m es).2 + (stepAll joinOf m es).1.length =
        stateSize es := by
  intro es
  induction es with
  | nil => simp [stepAll, stateSize]
  | cons e es ih =>
    have hc := consumeRun_size joinOf m e.key e.rest e.cur
    simp only [stepAll]
    cases hst : (consumeRun joinOf m e.key e.cur e.rest).2 with
    | none =>
      simp only [hst, restSize] at hc
      simp only [List.length_append, stateSize, List.map_cons, List.sum_cons,
        streamLen] at *
      omega
    | some p =>
      obtain ⟨c, r⟩ := p
      simp only [hst, restSize] at hc
      simp only [List.length_append, stateSize, List.map_cons, List.sum_cons,
        streamLen] at *
      omega

theorem stepAll_progress (joinOf : Row → String) (m : String)
    (es : List (Entry Row)) (h : ∃ e ∈ es, joinOf e.cur = m) :
    0 < (stepAll joinOf m es).1.length := by
  induction es with
  | nil => simp at h
  | cons e es ih =>
    simp only [stepAll]
    rcases h with ⟨x, hx, hxm⟩
    rcases List.mem_cons.mp hx with rfl | hx
    · have := consumeRun_pos joinOf m x.key x.cur x.rest hxm
      cases hst : (consumeRun joinOf m x.key x.cur x.rest).2 <;> simp_all
    · have := ih ⟨x, hx, hxm⟩
      cases hst : (consumeRun joinOf m e.key e.cur e.rest).2 <;> simp_all

theorem idsMin_attained (a : String) (l : List String) :
    idsMin a l = a ∨ idsMin a l ∈ l := by
  rw [idsMin_eq_foldl_min]
  induction l generalizing a with
  | nil => simp
  | cons b bs ih =>
    simp only [List.foldl_cons]
    rcases ih (min a b) with h | h
    · rcases min_cases a b with ⟨hm, _⟩ | ⟨hm, _⟩
      · left; rw [h, hm]
      · right; rw [h, hm]; exact List.mem_cons_self b bs
    · right; exact List.mem_cons_of_mem b h

theorem idsMin_le (a : String) (l : List String) :
    idsMin a l ≤ a ∧ ∀ x ∈ l, idsMin a l ≤ x := by
  rw [idsMin_eq_foldl_min]
  induction l generalizing a with
  | nil => simp
  | cons b bs ih =>
    simp only [List.foldl_cons]
    obtain ⟨h1, h2⟩ := ih (min a b)
    refine ⟨le_trans h1 (min_le_left a b), ?_⟩
    intro x hx
    rcases List.mem_cons.mp hx with rfl | hx
    · exact le_trans h1 (min_le_right a x)
    · exact h2 x hx

/-- Every step of the outer loop consumes at least one row: the minimum of
the current join ids is attained by some open source. -/
theorem step_shrinks (joinOf : Row → String) (e : Entry Row) (es : List (Entry Row)) :
    stateSize (stepAll joinOf (idsMin (joinOf e.cur) (es.map fun x => joinOf x.cur))
        (e :: es)).2 < stateSize (e :: es) := by
  have hmem : ∃ x ∈ (e :: es),
      joinOf x.cur = idsMin (joinOf e.cur) (es.map fun x => joinOf x.cur) := by
    rcases idsMin_attained (joinOf e.cur) (es.map fun x => joinOf x.cur) with h | h
    · exact ⟨e, List.mem_cons_self e es, h.symm⟩
    · rcases List.mem_map.mp h with ⟨x, hx, hxe⟩
      exact ⟨x, List.mem_cons_of_mem e hx, hxe⟩
  have hpos := stepAll_progress joinOf
    (idsMin (joinOf e.cur) (es.map fun x => joinOf x.cur)) (e :: es) hmem
  have hsz := stepAll_size joinOf
    (idsMin (joinOf e.cur) (es.map fun x => joinOf x.cur)) (e :: es)
  omega

/-- The outer `while lines:` loop (lines 49 to 63): while sources remain,
take the minimum current join id, let every source contribute its run of
matching rows, and continue with the remaining sources. The loop is driven
by a fuel argument so that it computes by reduction; by `step_shrinks`
every iteration strictly decreases `stateSize`, so any fuel of at least
`stateSize` reproduces the unbounded Python loop (see `mergeLoopF_fuel`). -/
def mergeLoopF (joinOf : Row → String) : Nat → List (Entry Row) → List (String × String × Row)
  | _, [] => []
  | 0, _ :: _ => []
  | n + 1, e :: es =>
    (stepAll joinOf (idsMin (joinOf e.cur) (es.map fun x => joinOf x.cur)) (e :: es)).1 ++
      mergeLoopF joinOf n
        (stepAll joinOf (idsMin (joinOf e.cur) (es.map fun x => joinOf x.cur)) (e :: es)).2

/-- Any fuel bounding the total number of held rows yields the same merge
output: the fuel is only a termination device, not part of the semantics. -/
theorem mergeLoopF_fuel (joinOf : Row → String) :
    ∀ (n m : Nat) (es : List (Entry Row)), stateSize es ≤ n → stateSize es ≤ m →
      mergeLoopF joinOf n es = mergeLoopF joinOf m es := by
  intro n
  induction n with
  | zero =>
    intro m es h0 _
    cases es with
    | nil => cases m <;> rfl
    | cons e es =>
      exfalso
      simp [stateSize, streamLen] at h0
  | succ n ih =>
    intro m es hn hm
    cases es with
    | nil => cases m <;> rfl
    | cons e es =>
      cases m with
      | zero =>
        exfalso
        simp [stateSize, streamLen] at hm
      | succ m =>
        have hlt := step_shrinks joinOf e es
        simp only [mergeLoopF]
        rw [ih m _ (by omega) (by omega)]

/-- The merge loop run with exactly enough fuel for its input. -/
def mergeLoop (joinOf : Row → String) (entries : List (Entry Row)) :
    List (String × String × Row) :=
  mergeLoopF joinOf (stateSize entries) entries

/-- Rows held by the after-state of one source, as a list. -/
def optRows : Option (Row × List Row) → List Row
  | none => []
  | some (c, r) => c :: r

/-- Rows of one source are non-decreasing by the join column. -/
def RowsSorted (joinOf : Row → String) (l : List Row) : Prop :=
  l.Pairwise fun a b => joinOf a ≤ joinOf b

theorem consumeRun_out (joinOf : Row → String) (m key : String) :
    ∀ (rest : List Row) (cur : Row), ∀ t ∈ (consumeRun joinOf m key cur rest).1,
      t.1 = m ∧ t.2.1 = key ∧ joinOf t.2.2 = m := by
  intro rest
  induction rest with
  | nil =>
    intro cur t ht
    by_cases h : joinOf cur = m <;> simp [consumeRun, h] at ht
    simp [ht, h]
  | cons r rs ih =>
    intro cur t ht
    by_cases h : joinOf cur = m
    · simp only [consumeRun, h, eq_self_iff_true, if_true, List.mem_cons] at ht
      rcases ht with rfl | ht
      · simp [h]
      · exact ih r t ht
    · simp [consumeRun, h] at ht

theorem consumeRun_split (joinOf : Row → String) (m key : String) :
    ∀ (rest : List Row) (cur : Row),
      (consumeRun joinOf m key cur rest).1.map (fun t => t.2.2) ++
        optRows (consumeRun joinOf m key cur rest).2 = cur :: rest := by
  intro rest
  induction rest with
  | nil =>
    intro cur
    by_cases h : joinOf cur = m <;> simp [consumeRun, h, optRows]
  | cons r rs ih =>
    intro cur
    by_cases h : joinOf cur = m
    · have hih := ih r
      simp only [consumeRun, h, eq_self_iff_true, if_true, List.map_cons,
        List.cons_append, hih]
    · simp [consumeRun, h, optRows]

theorem consumeRun_stop (joinOf : Row → String) (m key : String) :
    ∀ (rest : List Row) (cur : Row) (c : Row) (r : List Row),
      (consumeRun joinOf m key cur rest).2 = some (c, r) → joinOf c ≠ m := by
  intro rest
  induction rest with
  | nil =>
    intro cur c r h
    by_cases hc : joinOf cur = m <;> simp [consumeRun, hc] at h
    obtain ⟨rfl, _⟩ := h
    exact hc
  | cons x xs ih =>
    intro cur c r h
    by_cases hc : joinOf cur = m
    · simp only [consumeRun, hc, eq_self_iff_true, if_true] at h
      exact ih x c r h
    · simp only [consumeRun, hc, if_false, Option.some.injEq, Prod.mk.injEq] at h
      obtain ⟨rfl, _⟩ := h
      exact hc

/-- The after-state of one source is a suffix of its original stream. -/
theorem consumeRun_suffix (joinOf : Row → String) (m key : String)
    (rest : List Row) (cur : Row) :
    optRows (consumeRun joinOf m key cur rest).2 <:+ cur :: rest :=
  ⟨(consumeRun joinOf m key cur rest).1.map (fun t => t.2.2),
    consumeRun_split joinOf m key rest cur⟩

/-- After consuming the run of ids equal to the minimum, a sorted source
with current id at least `m` has moved strictly past `m`. -/
theorem consumeRun_next (joinOf : Row → String) (m key : String)
    (rest : List Row) (cur : Row) (c : Row) (r : List Row)
    (hs : RowsSorted joinOf (cur :: rest)) (hm : m ≤ joinOf cur)
    (h : (consumeRun joinOf m key cur rest).2 = some (c, r)) :
    m < joinOf c := by
  have hmem : c ∈ cur :: rest := by
    have hsub := consumeRun_suffix joinOf m key rest cur
    rw [h] at hsub
    exact hsub.sublist.subset (List.mem_cons_self c r)
  have hle : joinOf cur ≤ joinOf c := by
    rcases List.mem_cons.mp hmem with rfl | hmem
    · exact le_refl _
    · exact (List.pairwise_cons.mp hs).1 c hmem
  exact lt_of_le_of_ne (le_trans hm hle) (Ne.symm (consumeRun_stop joinOf m key rest cur c r h))

theorem stepAll_out (joinOf : Row → String) (m : String) :
    ∀ es : List (Entry Row), ∀ t ∈ (stepAll joinOf m es).1,
      t.1 = m ∧ t.2.1 ∈ es.map (fun e => e.key) ∧ joinOf t.2.2 = m := by
  intro es
  induction es with
  | nil => simp [stepAll]
  | cons e es ih =>
    intro t ht
    simp only [stepAll] at ht
    have hmem : t ∈ (consumeRun joinOf m e.key e.cur e.rest).1 ++ (stepAll joinOf m es).1 := by
      cases hst : (consumeRun joinOf m e.key e.cur e.rest).2 with
      | none => simpa [hst] using ht
      | some p => simpa [hst] using ht
    rcases List.mem_append.mp hmem with hin | hin
    · obtain ⟨h1, h2, h3⟩ := consumeRun_out joinOf m e.key e.rest e.cur t hin
      exact ⟨h1, by simp [h2], h3⟩
    · obtain ⟨h1, h2, h3⟩ := ih t hin
      exact ⟨h1, by simp [List.mem_map] at h2 ⊢; right; exact h2, h3⟩

theorem stepAll_keys (joinOf : Row → String) (m : String) :
    ∀ es : List (Entry Row),
      ((stepAll joinOf m es).2.map (fun e => e.key)).Sublist (es.map (fun e => e.key)) := by
  intro es
  induction es with
  | nil => simp [stepAll]
  | cons e es ih =>
    simp only [stepAll]
    cases hst : (consumeRun joinOf m e.key e.cur e.rest).2 with
    | none => exact ih.cons e.key
    | some p =>
      obtain ⟨c, r⟩ := p
      simpa using ih.cons₂ e.key

theorem stepAll_entries_sorted (joinOf : Row → String) (m : String) :
    ∀ es : List (Entry Row),
      (∀ e ∈ es, RowsSorted joinOf (e.cur :: e.rest)) →
      ∀ e ∈ (stepAll joinOf m es).2, RowsSorted joinOf (e.cur :: e.rest) := by
  intro es
  induction es with
  | nil => simp [stepAll]
  | cons e es ih =>
    intro hs x hx
    simp only [stepAll] at hx
    cases hst : (consumeRun joinOf m e.key e.cur e.rest).2 with
    | none =>
      rw [hst] at hx
      exact ih (fun y hy => hs y (List.mem_cons_of_mem e hy)) x hx
    | some p =>
      obtain ⟨c, r⟩ := p
      rw [hst] at hx
      rcases List.mem_cons.mp hx with rfl | hx
      · have hsuf := consumeRun_suffix joinOf m e.key e.rest e.cur
        rw [hst] at hsuf
        exact (hs e (List.mem_cons_self e es)).sublist hsuf.sublist
      · exact ih (fun y hy => hs y (List.mem_cons_of_mem e hy)) x hx

theorem stepAll_next (joinOf : Row → String) (m : String) :
    ∀ es : List (Entry Row),
      (∀ e ∈ es, RowsSorted joinOf (e.cur :: e.rest)) →
      (∀ e ∈ es, m ≤ joinOf e.cur) →
      ∀ e ∈ (stepAll joinOf m es).2, m < joinOf e.cur := by
  intro es
  induction es with
  | nil => simp [stepAll]
  | cons e es ih =>
    intro hs hm x hx
    simp only [stepAll] at hx
    cases hst : (consumeRun joinOf m e.key e.cur e.rest).2 with
    | none =>
      rw [hst] at hx
      exact ih (fun y hy => hs y (List.mem_cons_of_mem e hy))
        (fun y hy => hm y (List.mem_cons_of_mem e hy)) x hx
    | some p =>
      obtain ⟨c, r⟩ := p
      rw [hst] at hx
      rcases List.mem_cons.mp hx with rfl | hx
      · exact consumeRun_next joinOf m e.key e.rest e.cur c r
          (hs e (List.mem_cons_self e es)) (hm e (List.mem_cons_self e es)) hst
      · exact ih (fun y hy => hs y (List.mem_cons_of_mem e hy))
          (fun y hy => hm y (List.mem_cons_of_mem e hy)) x hx

/-- The rows attributed to source `k` in a merged triple stream, in
emission order. -/
def srcRows (k : String) (ts : List (String × String × Row)) : List Row :=
  (ts.filter fun t => t.2.1 = k).map fun t => t.2.2

/-- The stream (current row followed by unread rows) of the source named
`k` among the open sources, or `[]` when `k` is not open. -/
def streamOf (k : String) : List (Entry Row) → List Row
  | [] => []
  | e :: es => if e.key = k then e.cur :: e.rest else streamOf k es

theorem srcRows_append (k : String) (a b : List (String × String × Row)) :
    srcRows k (a ++ b) = srcRows k a ++ srcRows k b := by
  simp [srcRows, List.filter_append]

theorem srcRows_all_eq (k : String) (ts : List (String × String × Row))
    (h : ∀ t ∈ ts, t.2.1 = k) : srcRows k ts = ts.map fun t => t.2.2 := by
  unfold srcRows
  rw [List.filter_eq_self.mpr]
  intro t ht
  simpa using h t ht

theorem srcRows_all_ne (k : String) (ts : List (String × String × Row))
    (h : ∀ t ∈ ts, t.2.1 ≠ k) : srcRows k ts = [] := by
  unfold srcRows
  rw [List.filter_eq_nil_iff.mpr]
  · rfl
  · intro t ht
    simpa using h t ht

theorem streamOf_not_mem (k : String) :
    ∀ es : List (Entry Row), k ∉ es.map (fun e => e.key) → streamOf k es = [] := by
  intro es
  induction es with
  | nil => simp [streamOf]
  | cons e es ih =>
    intro h
    simp only [List.map_cons, List.mem_cons] at h
    push_neg at h
    rw [streamOf, if_neg (show ¬e.key = k from fun he => h.1 he.symm)]
    exact ih h.2

/-- One pass of the outer loop splits each open stream into the emitted
rows for that source followed by its remaining stream. -/
theorem stepAll_trace (joinOf : Row → String) (m : String) :
    ∀ (es : List (Entry Row)) (k : String), (es.map (fun e => e.key)).Nodup →
      srcRows k (stepAll joinOf m es).1 ++ streamOf k (stepAll joinOf m es).2 =
        streamOf k es := by
  intro es
  induction es with
  | nil => simp [stepAll, srcRows, streamOf]
  | cons e es ih =>
    intro k hnd
    simp only [List.map_cons, List.nodup_cons] at hnd
    obtain ⟨hke, hnd⟩ := hnd
    have houtk : ∀ t ∈ (consumeRun joinOf m e.key e.cur e.rest).1, t.2.1 = e.key :=
      fun t ht => (consumeRun_out joinOf m e.key e.rest e.cur t ht).2.1
    have htails : ∀ t ∈ (stepAll joinOf m es).1, t.2.1 ∈ es.map (fun x => x.key) :=
      fun t ht => (stepAll_out joinOf m es t ht).2.1
    by_cases hk : e.key = k
    · subst hk
      have h1 : srcRows e.key (consumeRun joinOf m e.key e.cur e.rest).1 =
          (consumeRun joinOf m e.key e.cur e.rest).1.map fun t => t.2.2 :=
        srcRows_all_eq _ _ houtk
      have h2 : srcRows e.key (stepAll joinOf m es).1 = [] := by
        refine srcRows_all_ne _ _ fun t ht hkt => hke ?_
        rw [← hkt]
        exact htails t ht
      have h3 : streamOf e.key (stepAll joinOf m es).2 = [] := by
        refine streamOf_not_mem _ _ fun hmem => hke ?_
        exact (stepAll_keys joinOf m es).subset hmem
      have hsplit := consumeRun_split joinOf m e.key e.rest e.cur
      simp only [stepAll]
      cases hst : (consumeRun joinOf m e.key e.cur e.rest).2 with
      | none =>
        rw [hst, optRows] at hsplit
        simp [srcRows_append, h1, h2, h3, streamOf, hsplit]
      | some p =>
        obtain ⟨c, r⟩ := p
        rw [hst, optRows] at hsplit
        simp [srcRows_append, h1, h2, streamOf, ← hsplit]
    · have h1 : srcRows k (consumeRun joinOf m e.key e.cur e.rest).1 = [] :=
        srcRows_all_ne _ _ fun t ht hkt => hk (by rw [← houtk t ht]; exact hkt)
      have hih := ih k hnd
      simp only [stepAll]
      cases hst : (consumeRun joinOf m e.key e.cur e.rest).2 with
      | none =>
        simp [srcRows_append, h1, streamOf, if_neg hk, hih]
      | some p =>
        obtain ⟨c, r⟩ := p
        simp [srcRows_append, h1, streamOf, if_neg hk, hih]

theorem idsMin_cons_attained (joinOf : Row → String) (e : Entry Row) (es : List (Entry Row)) :
    ∃ x ∈ e :: es, joinOf x.cur = idsMin (joinOf e.cur) (es.map fun x => joinOf x.cur) := by
  rcases idsMin_attained (joinOf e.cur) (es.map fun x => joinOf x.cur) with h | h
  · exact ⟨e, List.mem_cons_self e es, h.symm⟩
  · rcases List.mem_map.mp h with ⟨x, hx, hxe⟩
    exact ⟨x, List.mem_cons_of_mem e hx, hxe⟩

theorem idsMin_cons_le (joinOf : Row → String) (e : Entry Row) (es : List (Entry Row)) :
    ∀ x ∈ e :: es, idsMin (joinOf e.cur) (es.map fun x => joinOf x.cur) ≤ joinOf x.cur := by
  intro x hx
  obtain ⟨h1, h2⟩ := idsMin_le (joinOf e.cur) (es.map fun x => joinOf x.cur)
  rcases List.mem_cons.mp hx with rfl | hx
  · exact h1
  · exact h2 _ (List.mem_map_of_mem _ hx)

/-- Every merged triple carries the join-column value of its own row: the
first component is the id the row was yielded under. -/
theorem mergeLoopF_row_id (joinOf : Row → String) :
    ∀ (n : Nat) (es : List (Entry Row)), ∀ t ∈ mergeLoopF joinOf n es,
      joinOf t.2.2 = t.1 := by
  intro n
  induction n with
  | zero =>
    intro es t ht
    cases es <;> simp [mergeLoopF] at ht
  | succ n ih =>
    intro es t ht
    cases es with
    | nil => simp [mergeLoopF] at ht
    | cons e es =>
      simp only [mergeLoopF, List.mem_append] at ht
      rcases ht with ht | ht
      · obtain ⟨h1, _, h3⟩ := stepAll_out joinOf _ _ t ht
        rw [h3, h1]
      · exact ih _ t ht

/-- Lower bound transfer: if every open current id is above `b`, so is
every id the loop emits. -/
theorem mergeLoopF_lb (joinOf : Row → String) :
    ∀ (n : Nat) (es : List (Entry Row)),
      (∀ e ∈ es, RowsSorted joinOf (e.cur :: e.rest)) →
      ∀ b : String, (∀ e ∈ es, b < joinOf e.cur) →
      ∀ t ∈ mergeLoopF joinOf n es, b < t.1 := by
  intro n
  induction n with
  | zero =>
    intro es _ b _ t ht
    cases es <;> simp [mergeLoopF] at ht
  | succ n ih =>
    intro es hs b hb t ht
    cases es with
    | nil => simp [mergeLoopF] at ht
    | cons e es =>
      have hm_att := idsMin_cons_attained joinOf e es
      have hm_le := idsMin_cons_le joinOf e es
      simp only [mergeLoopF, List.mem_append] at ht
      obtain ⟨x, hx, hxm⟩ := hm_att
      rcases ht with ht | ht
      · have h1 := (stepAll_out joinOf _ _ t ht).1
        rw [h1, ← hxm]
        exact hb x hx
      · refine ih _ (stepAll_entries_sorted joinOf _ _ hs) b ?_ t ht
        intro e' he'
        have hlt := stepAll_next joinOf _ _ hs hm_le e' he'
        calc b < joinOf x.cur := hb x hx
          _ = _ := hxm
          _ < _ := hlt

/-- The merged stream is non-decreasing in its id component. -/
theorem mergeLoopF_sorted (joinOf : Row → String) :
    ∀ (n : Nat) (es : List (Entry Row)),
      (∀ e ∈ es, RowsSorted joinOf (e.cur :: e.rest)) →
      (mergeLoopF joinOf n es).Pairwise fun a b => a.1 ≤ b.1 := by
  intro n
  induction n with
  | zero =>
    intro es _
    cases es <;> simp [mergeLoopF]
  | succ n ih =>
    intro es hs
    cases es with
    | nil => simp [mergeLoopF]
    | cons e es =>
      have hm_le := idsMin_cons_le joinOf e es
      simp only [mergeLoopF]
      refine List.pairwise_append.mpr ⟨?_, ih _ (stepAll_entries_sorted joinOf _ _ hs), ?_⟩
      · refine List.pairwise_of_forall_mem_list fun a ha b hb => ?_
        rw [(stepAll_out joinOf _ _ a ha).1, (stepAll_out joinOf _ _ b hb).1]
      · intro a ha b hb
        rw [(stepAll_out joinOf _ _ a ha).1]
        exact le_of_lt (mergeLoopF_lb joinOf n _
          (stepAll_entries_sorted joinOf _ _ hs) _
          (stepAll_next joinOf _ _ hs hm_le) b hb)

/-- With enough fuel, the merge emits, for each source, exactly that
stream of each source, in stream order. -/
theorem mergeLoopF_trace (joinOf : Row → String) :
    ∀ (n : Nat) (es : List (Entry Row)) (k : String), stateSize es ≤ n →
      (es.map (fun e => e.key)).Nodup →
      srcRows k (mergeLoopF joinOf n es) = streamOf k es := by
  intro n
  induction n with
  | zero =>
    intro es k hsz _
    cases es with
    | nil => simp [mergeLoopF, srcRows, streamOf]
    | cons e es => simp [stateSize, streamLen] at hsz
  | succ n ih =>
    intro es k hsz hnd
    cases es with
    | nil => simp [mergeLoopF, srcRows, streamOf]
    | cons e es =>
      have hlt := step_shrinks joinOf e es
      have hkeys := stepAll_keys joinOf
        (idsMin (joinOf e.cur) (es.map fun x => joinOf x.cur)) (e :: es)
      simp only [mergeLoopF]
      rw [srcRows_append, ih _ k (by omega) (hnd.sublist hkeys)]
      exact stepAll_trace joinOf _ _ k hnd

/-- Lines 41 to 47 of the script: read the first row of every file, and
ignore a file that has no rows (the caught StopIteration). Each file is a
pair of source name (its dict key) and its parsed rows in file order. -/
def initEntries (files : List (String × List Row)) : List (Entry Row) :=
  files.filterMap fun f =>
    match f.2 with
    | [] => none
    | r :: rs => some ⟨f.1, r, rs⟩

/-- Function `merge_sort_files` (lines 36 to 63): merges multiple sorted inputs into
a stream of ordered triples `(id, source, row)`. File handles and CSV
readers are modelled by the parsed row lists; `line[join_col]` is the
projection `joinOf`. -/
def merge_sort_files (joinOf : Row → String) (files : List (String × List Row)) :
    List (String × String × Row) :=
  mergeLoop joinOf (initEntries files)

/-- Rows of the file named `k` (files form a dict, so names are unique). -/
def fileRows : List (String × List Row) → String → List Row
  | [], _ => []
  | f :: fs, k => if f.1 = k then f.2 else fileRows fs k

instance (joinOf : Row → String) (l : List Row) : Decidable (RowsSorted joinOf l) :=
  decidable_of_iff (l.Pairwise fun a b => (joinOf a).data ≤ (joinOf b).data)
    (List.Pairwise.iff fun _ _ => String.le_iff_toList_le.symm)

theorem initEntries_cons_nil (f : String × List Row) (fs : List (String × List Row))
    (hf : f.2 = []) : initEntries (f :: fs) = initEntries fs := by
  simp [initEntries, List.filterMap_cons, hf]

theorem initEntries_cons_some (f : String × List Row) (fs : List (String × List Row))
    (r : Row) (rs : List Row) (hf : f.2 = r :: rs) :
    initEntries (f :: fs) = ⟨f.1, r, rs⟩ :: initEntries fs := by
  simp [initEntries, List.filterMap_cons, hf]

theorem initEntries_keys (files : List (String × List Row)) :
    ((initEntries files).map (fun e => e.key)).Sublist (files.map Prod.fst) := by
  induction files with
  | nil => simp [initEntries]
  | cons f fs ih =>
    cases hf : f.2 with
    | nil =>
      simp only [initEntries, List.filterMap_cons, hf, List.map_cons]
      exact ih.cons f.1
    | cons r rs =>
      simp only [initEntries, List.filterMap_cons, hf, List.map_cons]
      exact ih.cons₂ f.1

theorem initEntries_stream (files : List (String × List Row)) (k : String)
    (hnd : (files.map Prod.fst).Nodup) :
    streamOf k (initEntries files) = fileRows files k := by
  induction files with
  | nil => simp [initEntries, streamOf, fileRows]
  | cons f fs ih =>
    simp only [List.map_cons, List.nodup_cons] at hnd
    obtain ⟨hf1, hnd⟩ := hnd
    by_cases hk : f.1 = k
    · subst hk
      cases hf : f.2 with
      | nil =>
        have hnone : streamOf f.1 (initEntries fs) = [] := by
          apply streamOf_not_mem
          intro hmem
          exact hf1 ((initEntries_keys fs).subset hmem)
        rw [initEntries_cons_nil f fs hf, hnone, fileRows, if_pos rfl, hf]
      | cons r rs =>
        rw [initEntries_cons_some f fs r rs hf, fileRows, if_pos rfl, hf]
        simp [streamOf]
    · cases hf : f.2 with
      | nil =>
        rw [initEntries_cons_nil f fs hf, fileRows, if_neg hk]
        exact ih hnd
      | cons r rs =>
        rw [initEntries_cons_some f fs r rs hf, fileRows, if_neg hk]
        have hsk : streamOf k ((⟨f.1, r, rs⟩ : Entry Row) :: initEntries fs) =
            streamOf k (initEntries fs) := by
          simp [streamOf, hk]
        rw [hsk]
        exact ih hnd

theorem initEntries_sorted (joinOf : Row → String) (files : List (String × List Row))
    (hs : ∀ f ∈ files, RowsSorted joinOf f.2) :
    ∀ e ∈ initEntries files, RowsSorted joinOf (e.cur :: e.rest) := by
  intro e he
  rw [initEntries, List.mem_filterMap] at he
  obtain ⟨f, hf, hfe⟩ := he
  cases hrows : f.2 with
  | nil => rw [hrows] at hfe; simp at hfe
  | cons r rs =>
    rw [hrows] at hfe
    simp only [Option.some.injEq] at hfe
    have hsf := hs f hf
    rw [hrows] at hsf
    rw [← hfe]
    exact hsf

/-- C2: for inputs whose rows are each non-decreasing by the join column in
lexical string order, the merged sequence of (JoinId, source, row) triples
has non-decreasing JoinIds, and for every JoinId all contributing rows
appear contiguously: between two positions holding an id, no other id
occurs. -/
theorem merge_ids_sorted_contiguous {Row : Type} (joinOf : Row → String)
    (files : List (String × List Row))
    (hs : ∀ f ∈ files, RowsSorted joinOf f.2) :
    ((merge_sort_files joinOf files).map (fun t => t.1)).Sorted (· ≤ ·) ∧
      ∀ (i j k : Fin ((merge_sort_files joinOf files).map (fun t => t.1)).length),
        i ≤ j → j ≤ k →
        ((merge_sort_files joinOf files).map (fun t => t.1)).get i =
          ((merge_sort_files joinOf files).map (fun t => t.1)).get k →
        ((merge_sort_files joinOf files).map (fun t => t.1)).get j =
          ((merge_sort_files joinOf files).map (fun t => t.1)).get i := by
  have hsorted : ((merge_sort_files joinOf files).map (fun t => t.1)).Sorted (· ≤ ·) := by
    rw [List.Sorted, List.pairwise_map]
    exact mergeLoopF_sorted joinOf _ _ (initEntries_sorted joinOf files hs)
  refine ⟨hsorted, fun i j k hij hjk hik => ?_⟩
  have h1 := hsorted.rel_get_of_le hij
  have h2 := hsorted.rel_get_of_le hjk
  exact le_antisymm (le_trans h2 (le_of_eq hik.symm)) h1

/-- Witness for C2 at the fixture of spec section 8: files A with ids
1,1,2, B with ids 1,3, C empty, rows being their own join ids. -/
theorem merge_ids_sorted_contiguous_witness :
    (∀ f ∈ [("A", ["1", "1", "2"]), ("B", ["1", "3"]), ("C", ([] : List String))],
        RowsSorted (fun r => r) f.2) ∧
      ((merge_sort_files (fun r => r)
          [("A", ["1", "1", "2"]), ("B", ["1", "3"]), ("C", [])]).map
        (fun t => t.1)).Sorted (· ≤ ·) :=
  ⟨by decide,
    (merge_ids_sorted_contiguous (fun r => r)
      [("A", ["1", "1", "2"]), ("B", ["1", "3"]), ("C", [])] (by decide)).1⟩

/-- Python `itertools.groupby(merged_stream, lambda row: row[0])` (line 70):
split a list into maximal runs of adjacent elements sharing their first
component, returning each run with its key. -/
def groupRuns : List (String × String × Row) → List (String × List (String × String × Row))
  | [] => []
  | t :: ts =>
    match groupRuns ts with
    | [] => [(t.1, [t])]
    | (k, run) :: rest =>
      if t.1 = k then (k, t :: run) :: rest else (t.1, [t]) :: (k, run) :: rest

/-- Appending `result[key].append(line)` on a `defaultdict(list)` (line 73), with the
dict modelled as an insertion-ordered association list. -/
def addRow (res : List (String × List Row)) (key : String) (row : Row) :
    List (String × List Row) :=
  match res with
  | [] => [(key, [row])]
  | (q, rs) :: rest =>
    if q = key then (q, rs ++ [row]) :: rest else (q, rs) :: addRow rest key row

/-- Lines 71 to 73: fold the triples of one group (the matches of one id)
into the per-source row lists. -/
def buildResult (ms : List (String × String × Row)) : List (String × List Row) :=
  ms.foldl (fun res t => addRow res t.2.1 t.2.2) []

/-- Function `collate_multiple_files` (lines 66 to 74): group the merged stream by
id and collect each group into a mapping from source name to its rows. -/
def collate_multiple_files (joinOf : Row → String) (files : List (String × List Row)) :
    List (List (String × List Row)) :=
  (groupRuns (merge_sort_files joinOf files)).map fun g => buildResult g.2

/-- Lookup in the grouped record: `defaultdict(list).__getitem__` and
`dict.get(k, [])` both yield `[]` for an absent source (lines 250, 257). -/
def dget (res : List (String × List Row)) (k : String) : List Row :=
  match res with
  | [] => []
  | (q, rs) :: rest => if q = k then rs else dget rest k

theorem srcRows_cons (k : String) (t : String × String × Row)
    (ts : List (String × String × Row)) :
    srcRows k (t :: ts) =
      if t.2.1 = k then t.2.2 :: srcRows k ts else srcRows k ts := by
  by_cases h : t.2.1 = k <;> simp [srcRows, List.filter_cons, h]

theorem dget_addRow (res : List (String × List Row)) (key k : String) (row : Row) :
    dget (addRow res key row) k =
      if key = k then dget res k ++ [row] else dget res k := by
  induction res with
  | nil =>
    by_cases h : key = k <;> simp [addRow, dget, h]
  | cons p rest ih =>
    obtain ⟨q, rs⟩ := p
    by_cases hq : q = key
    · subst hq
      by_cases h : q = k <;> simp [addRow, dget, h]
    · by_cases h : q = k
      · subst h
        have : ¬q = key := hq
        simp [addRow, if_neg hq, dget, if_neg (fun hc : key = q => hq hc.symm), ih]
      · simp [addRow, if_neg hq, dget, if_neg h, ih]

theorem dget_foldl_addRow (k : String) :
    ∀ (ts : List (String × String × Row)) (res : List (String × List Row)),
      dget (ts.foldl (fun res t => addRow res t.2.1 t.2.2) res) k =
        dget res k ++ srcRows k ts := by
  intro ts
  induction ts with
  | nil => intro res; simp [srcRows]
  | cons t ts ih =>
    intro res
    rw [List.foldl_cons, ih, dget_addRow, srcRows_cons]
    by_cases h : t.2.1 = k <;> simp [h]

/-- The grouped record stores under each source name exactly the rows of
that source among the triples of the group, in arrival order. -/
theorem dget_buildResult (k : String) (ts : List (String × String × Row)) :
    dget (buildResult ts) k = srcRows k ts := by
  rw [buildResult, dget_foldl_addRow]
  rfl

theorem groupRuns_join :
    ∀ l : List (String × String × Row), ((groupRuns l).map Prod.snd).flatten = l := by
  intro l
  induction l with
  | nil => rfl
  | cons t ts ih =>
    cases hgr : groupRuns ts with
    | nil =>
      rw [hgr] at ih
      simp only [List.map_nil, List.flatten_nil] at ih
      simp [groupRuns, hgr, ← ih]
    | cons g rest =>
      obtain ⟨k, run⟩ := g
      rw [hgr] at ih
      simp only [List.map_cons, List.flatten_cons] at ih
      by_cases ht : t.1 = k
      · simp [groupRuns, hgr, ht, ih]
      · simp [groupRuns, hgr, ht, ih]

theorem groupRuns_key :
    ∀ l : List (String × String × Row), ∀ g ∈ groupRuns l, ∀ t ∈ g.2, t.1 = g.1 := by
  intro l
  induction l with
  | nil => simp [groupRuns]
  | cons t ts ih =>
    intro g hg s hs
    cases hgr : groupRuns ts with
    | nil =>
      simp only [groupRuns, hgr, List.mem_singleton] at hg
      subst hg
      simp only [List.mem_singleton] at hs
      subst hs
      rfl
    | cons p rest =>
      obtain ⟨k, run⟩ := p
      simp only [groupRuns, hgr] at hg
      by_cases ht : t.1 = k
      · rw [if_pos ht] at hg
        rcases List.mem_cons.mp hg with rfl | hg
        · rcases List.mem_cons.mp hs with rfl | hs
          · exact ht
          · exact ih (k, run) (by rw [hgr]; exact List.mem_cons_self _ _) s hs
        · exact ih g (by rw [hgr]; exact List.mem_cons_of_mem _ hg) s hs
      · rw [if_neg ht] at hg
        rcases List.mem_cons.mp hg with rfl | hg
        · simp only [List.mem_singleton] at hs
          subst hs
          rfl
        · exact ih g (by rw [hgr]; exact hg) s hs

theorem groupRuns_keys :
    ∀ l : List (String × String × Row),
      ((groupRuns l).map Prod.fst).Sublist (l.map fun t => t.1) := by
  intro l
  induction l with
  | nil => simp [groupRuns]
  | cons t ts ih =>
    cases hgr : groupRuns ts with
    | nil =>
      rw [hgr] at ih
      simp only [groupRuns, hgr, List.map_cons]
      simp
    | cons p rest =>
      obtain ⟨k, run⟩ := p
      rw [hgr] at ih
      by_cases ht : t.1 = k
      · subst ht
        simp only [groupRuns, hgr, eq_self_iff_true, if_true, List.map_cons] at ih ⊢
        exact ih.cons t.1
      · simp only [groupRuns, hgr, if_neg ht, List.map_cons] at ih ⊢
        exact ih.cons₂ t.1

theorem groupRuns_chain :
    ∀ l : List (String × String × Row),
      ((groupRuns l).map Prod.fst).Chain' (fun a b => a ≠ b) := by
  intro l
  induction l with
  | nil => simp [groupRuns]
  | cons t ts ih =>
    cases hgr : groupRuns ts with
    | nil => simp [groupRuns, hgr]
    | cons p rest =>
      obtain ⟨k, run⟩ := p
      rw [hgr] at ih
      by_cases ht : t.1 = k
      · subst ht
        simpa [groupRuns, hgr] using ih
      · simp only [groupRuns, hgr, if_neg ht, List.map_cons]
        exact List.chain'_cons.mpr ⟨ht, ih⟩

theorem groupRuns_covers :
    ∀ l : List (String × String × Row), ∀ s ∈ l, s.1 ∈ (groupRuns l).map Prod.fst := by
  intro l s hs
  have hj := groupRuns_join l
  rw [← hj] at hs
  rcases List.mem_flatten.mp hs with ⟨run, hrun, hsr⟩
  rcases List.mem_map.mp hrun with ⟨g, hg, rfl⟩
  rw [groupRuns_key l g hg s hsr]
  exact List.mem_map_of_mem _ hg

/-- With pairwise-distinct run keys, each run holds exactly the elements
of the list carrying its key. -/
theorem groupRuns_filter :
    ∀ l : List (String × String × Row), ((groupRuns l).map Prod.fst).Nodup →
      ∀ g ∈ groupRuns l, g.2 = l.filter fun t => t.1 = g.1 := by
  intro l
  induction l with
  | nil => simp [groupRuns]
  | cons t ts ih =>
    intro hnd g hg
    cases hgr : groupRuns ts with
    | nil =>
      have hts : ts = [] := by
        have hj := groupRuns_join ts
        rw [hgr] at hj
        simpa using hj.symm
      subst hts
      simp only [groupRuns, List.mem_singleton] at hg
      subst hg
      simp
    | cons p rest =>
      obtain ⟨k, run⟩ := p
      simp only [groupRuns, hgr] at hg hnd
      by_cases ht : t.1 = k
      · subst ht
        rw [if_pos rfl] at hg hnd
        simp only [List.map_cons] at hnd
        have hnd2 : ((groupRuns ts).map Prod.fst).Nodup := by
          rw [hgr]
          simp only [List.map_cons]
          exact hnd
        rcases List.mem_cons.mp hg with rfl | hg
        · have hrun : run = ts.filter fun s => s.1 = t.1 :=
            ih hnd2 (t.1, run) (by rw [hgr]; exact List.mem_cons_self _ _)
          simp [List.filter_cons, ← hrun]
        · have hne : ¬t.1 = g.1 := by
            intro he
            have hmem : g.1 ∈ List.map Prod.fst rest := List.mem_map_of_mem _ hg
            rw [← he] at hmem
            exact (List.nodup_cons.mp hnd).1 hmem
          have hgts := ih hnd2 g (by rw [hgr]; exact List.mem_cons_of_mem _ hg)
          rw [hgts, List.filter_cons, if_neg (by simpa using hne)]
      · rw [if_neg ht] at hg hnd
        simp only [List.map_cons] at hnd
        have hnd2 : ((groupRuns ts).map Prod.fst).Nodup := by
          rw [hgr]
          simp only [List.map_cons]
          exact (List.nodup_cons.mp hnd).2
        have hhead : t.1 ∉ (groupRuns ts).map Prod.fst := by
          rw [hgr]
          simp only [List.map_cons]
          exact (List.nodup_cons.mp hnd).1
        rcases List.mem_cons.mp hg with rfl | hg
        · have hfil : ts.filter (fun s => s.1 = t.1) = [] := by
            refine List.filter_eq_nil_iff.mpr fun s hsm => ?_
            simp only [decide_eq_true_eq]
            intro he
            exact hhead (he ▸ groupRuns_covers ts s hsm)
          simp [List.filter_cons, hfil]
        · have hgk : g.1 ∈ (groupRuns ts).map Prod.fst := by
            rw [hgr]
            exact List.mem_map_of_mem _ hg
          have hne : ¬t.1 = g.1 := fun he => hhead (he ▸ hgk)
          have hgts := ih hnd2 g (by rw [hgr]; exact hg)
          rw [hgts, List.filter_cons, if_neg (by simpa using hne)]

theorem chain_le_ne_lt :
    ∀ l : List String, l.Chain' (· ≤ ·) → l.Chain' (fun a b => a ≠ b) →
      l.Chain' (· < ·) := by
  intro l
  induction l with
  | nil => intro _ _; simp
  | cons a t ih =>
    cases t with
    | nil => intro _ _; simp
    | cons b t2 =>
      intro hle hne
      rw [List.chain'_cons] at hle hne ⊢
      exact ⟨lt_of_le_of_ne hle.1 hne.1, ih hle.2 hne.2⟩

theorem srcRows_filter_id (joinOf : Row → String) (k i : String) :
    ∀ L : List (String × String × Row), (∀ t ∈ L, joinOf t.2.2 = t.1) →
      srcRows k (L.filter fun t => t.1 = i) =
        (srcRows k L).filter fun r => joinOf r = i := by
  intro L
  induction L with
  | nil => simp [srcRows]
  | cons t ts ih =>
    intro h
    have ht := h t (List.mem_cons_self t ts)
    have ihh := ih fun s hs => h s (List.mem_cons_of_mem _ hs)
    by_cases hp : t.1 = i <;> by_cases hq : t.2.1 = k <;>
      simp [List.filter_cons, srcRows_cons, hp, hq, ht, ihh]

/-- C3: for distinct source names and sorted inputs, the grouper emits one
grouped record per distinct JoinId — the run keys of the merged stream are
strictly ascending (hence pairwise distinct), appear in merged-stream
first-appearance order (they form a sublist of the merged ids) and hit
exactly the merged ids — and for each group the rows stored under each
source name are exactly the rows of that id from the original file of that
source, in
file order. -/
theorem collate_groups_per_id {Row : Type} (joinOf : Row → String)
    (files : List (String × List Row))
    (hnd : (files.map Prod.fst).Nodup)
    (hs : ∀ f ∈ files, RowsSorted joinOf f.2) :
    collate_multiple_files joinOf files =
        (groupRuns (merge_sort_files joinOf files)).map (fun g => buildResult g.2) ∧
      ((groupRuns (merge_sort_files joinOf files)).map Prod.fst).Sorted (· < ·) ∧
      ((groupRuns (merge_sort_files joinOf files)).map Prod.fst).Sublist
        ((merge_sort_files joinOf files).map fun t => t.1) ∧
      (∀ i : String,
        i ∈ (groupRuns (merge_sort_files joinOf files)).map Prod.fst ↔
          i ∈ (merge_sort_files joinOf files).map fun t => t.1) ∧
      ∀ g ∈ groupRuns (merge_sort_files joinOf files), ∀ k : String,
        dget (buildResult g.2) k = (fileRows files k).filter fun r => joinOf r = g.1 := by
  have hids : ((merge_sort_files joinOf files).map fun t => t.1).Sorted (· ≤ ·) :=
    (merge_ids_sorted_contiguous joinOf files hs).1
  have hsub := groupRuns_keys (merge_sort_files joinOf files)
  have hkeysle : ((groupRuns (merge_sort_files joinOf files)).map Prod.fst).Pairwise
      (· ≤ ·) := hids.sublist hsub
  have hchainlt := chain_le_ne_lt _
    (List.chain'_iff_pairwise.mpr hkeysle)
    (groupRuns_chain (merge_sort_files joinOf files))
  have hkeyslt : ((groupRuns (merge_sort_files joinOf files)).map Prod.fst).Sorted
      (· < ·) := List.chain'_iff_pairwise.mp hchainlt
  have hnodup : ((groupRuns (merge_sort_files joinOf files)).map Prod.fst).Nodup :=
    hkeyslt.imp ne_of_lt
  refine ⟨rfl, hkeyslt, hsub, ?_, ?_⟩
  · intro i
    constructor
    · exact fun h => hsub.subset h
    · intro h
      rcases List.mem_map.mp h with ⟨t, ht, rfl⟩
      exact groupRuns_covers _ t ht
  · intro g hg k
    rw [dget_buildResult, groupRuns_filter _ hnodup g hg]
    have hrowid : ∀ t ∈ merge_sort_files joinOf files, joinOf t.2.2 = t.1 :=
      fun t ht => mergeLoopF_row_id joinOf _ _ t ht
    rw [srcRows_filter_id joinOf k g.1 _ hrowid]
    have htrace : srcRows k (merge_sort_files joinOf files) = fileRows files k := by
      rw [merge_sort_files, mergeLoop,
        mergeLoopF_trace joinOf _ _ k (le_refl _) (hnd.sublist (initEntries_keys files))]
      exact initEntries_stream files k hnd
    rw [htrace]

/-- Witness for C3 at the fixture of spec section 8. -/
theorem collate_groups_per_id_witness :
    (([("A", ["1", "1", "2"]), ("B", ["1", "3"]),
        ("C", ([] : List String))].map Prod.fst).Nodup ∧
      ∀ f ∈ [("A", ["1", "1", "2"]), ("B", ["1", "3"]), ("C", ([] : List String))],
        RowsSorted (fun r => r) f.2) ∧
      (("2" : String) ∈ (groupRuns (merge_sort_files (fun r => r)
          [("A", ["1", "1", "2"]), ("B", ["1", "3"]), ("C", [])])).map Prod.fst ↔
        ("2" : String) ∈ (merge_sort_files (fun r => r)
          [("A", ["1", "1", "2"]), ("B", ["1", "3"]), ("C", [])]).map fun t => t.1) :=
  ⟨⟨by decide, by decide⟩,
    (collate_groups_per_id (fun r => r)
      [("A", ["1", "1", "2"]), ("B", ["1", "3"]), ("C", [])]
      (by decide) (by decide)).2.2.2.1 "2"⟩

/-! ### Record transformation (lines 77 to 159) -/

/-- Python values appearing in the transformed objects. -/
inductive Val where
  | s (x : String)
  | i (n : Int)
  | list (l : List Val)
  | obj (fields : List (String × Val))

/-- Python exceptions arising on the modelled code paths. -/
inductive PyErr where
  | keyError
  | indexError
  | valueError
  | externalError
deriving DecidableEq

/-- A CSV row as produced by `csv.DictReader`: a dict from column name to
string value, modelled as an insertion-ordered association list. -/
abbrev PyRow := List (String × String)

/-- Python dict lookup, `none` for a missing key. -/
def rowGet (row : PyRow) (k : String) : Option String :=
  match row with
  | [] => none
  | (q, v) :: rest => if q = k then some v else rowGet rest k

/-- Base-10 value of a digit list. -/
def digitsToNat (l : List Char) : Nat :=
  l.foldl (fun acc c => 10 * acc + (c.toNat - 48)) 0

/-- Python `int(s)` on a string: optional surrounding whitespace, an
optional sign, then a nonempty digit run; anything else raises ValueError. -/
def pyInt (s : String) : Except PyErr Val :=
  let cs := s.data.dropWhile (fun c => c = ' ')
  let cs := (cs.reverse.dropWhile (fun c => c = ' ')).reverse
  let p : Int × List Char :=
    match cs with
    | '-' :: rest => (-1, rest)
    | '+' :: rest => (1, rest)
    | _ => (1, cs)
  if p.2 ≠ [] ∧ p.2.all (fun c => c.isDigit) then
    .ok (.i (p.1 * (digitsToNat p.2 : Int)))
  else
    .error .valueError

/-- Python `str` applied to a string value: the identity cast. -/
def pyStr (s : String) : Except PyErr Val := .ok (.s s)

/-- Helper `formatFields`: the loop of `format_record_object` (lines 87 to 92).
A csv_key absent from the row is skipped (the caught KeyError); a present
value is cast eagerly and a cast exception propagates immediately. -/
def formatFields (data : PyRow) :
    List (String × String × (String → Except PyErr Val)) →
      Except PyErr (List (String × Val))
  | [] => .ok []
  | (csv_key, driver_key, cast_func) :: rest =>
    match rowGet data csv_key with
    | none => formatFields data rest
    | some v =>
      match cast_func v with
      | .error e => .error e
      | .ok val =>
        match formatFields data rest with
        | .error e => .error e
        | .ok fields => .ok ((driver_key, val) :: fields)

/-- Function `format_record_object` (lines 85 to 97): the mapped fields followed by
the generated `_localId`; the fresh `uuid.uuid4()` string is the
`uuidVal` parameter. The output dict is modelled as an insertion-ordered
association list (the driver keys of each table are pairwise distinct). -/
def format_record_object (uuidVal : String) (data : PyRow)
    (mapping : List (String × String × (String → Except PyErr Val))) :
    Except PyErr (List (String × Val)) :=
  match formatFields data mapping with
  | .error e => .error e
  | .ok fields => .ok (fields ++ [("_localId", .s uuidVal)])

/-- Field-mapping table for driverIncidentDetails (lines 102 to 114). -/
def incident_mapping : List (String × String × (String → Except PyErr Val)) :=
  [("", "Log1", pyInt), ("", "Numero", pyInt), ("", "CodReferencia", pyInt),
   ("", "Log2", pyInt), ("", "Log3", pyInt), ("", "CodIntersecao", pyInt),
   ("", "Jurisdicao", pyStr), ("", "CodNatureza", pyInt),
   ("", "TipoCruzamento", pyInt), ("", "INTERSEÇÃO?", pyStr),
   ("", "Natureza", pyStr)]

/-- Field-mapping table for driverPerson (lines 115 to 122). -/
def person_mapping : List (String × String × (String → Except PyErr Val)) :=
  [("", "CdPessoa", pyInt), ("", "CdGravidadeLesao", pyInt), ("", "Sexo", pyStr),
   ("", "TipoPessoa", pyInt), ("", "CdVeiculo", pyInt), ("", "Idade", pyInt)]

/-- Field-mapping table for driverVehicle (lines 123 to 128). -/
def vehicle_mapping : List (String × String × (String → Except PyErr Val)) :=
  [("", "CdVeiculo", pyInt), ("", "Ano", pyInt), ("", "TipoVeiculo", pyStr),
   ("", "Linha", pyInt)]

/-- The list comprehensions of lines 115 and 123: format each row of a
sub-block with its own fresh uuid, numbering the uuid stream from `base`. -/
def formatRecordList (uuid : Nat → String) (base : Nat)
    (mapping : List (String × String × (String → Except PyErr Val))) :
    List PyRow → Except PyErr (List Val)
  | [] => .ok []
  | p :: ps =>
    match format_record_object (uuid base) p mapping with
    | .error e => .error e
    | .ok fields =>
      match formatRecordList uuid (base + 1) mapping ps with
      | .error e => .error e
      | .ok rest => .ok (.obj fields :: rest)

/-- Function `construct_record_data` (lines 100 to 129). The `uuid` parameter is
the stream of fresh uuid4 values in generation order: the details object
draws index 0, then one per person object, then one per vehicle object. -/
def construct_record_data (uuid : Nat → String) (record : PyRow)
    (persons vehicles : List PyRow) : Except PyErr Val :=
  match format_record_object (uuid 0) record incident_mapping with
  | .error e => .error e
  | .ok details =>
    match formatRecordList uuid 1 person_mapping persons with
    | .error e => .error e
    | .ok personObjs =>
      match formatRecordList uuid (1 + persons.length) vehicle_mapping vehicles with
      | .error e => .error e
      | .ok vehicleObjs =>
        .ok (.obj [("driverIncidentDetails", .obj details),
          ("driverPerson", .list personObjs),
          ("driverVehicle", .list vehicleObjs)])

/-! ### Python float semantics for the geometry literal (lines 146 to 149)

The code float(record[Longitude]) parses the string to the nearest IEEE
binary64 value and the format interpolation renders it with Python 2
`str(float)` semantics (12 significant digits, `%.12g`). Both steps are
modelled exactly over the rationals. -/

/-- Exact rational value of a finite decimal literal accepted by Python
`float`: optional whitespace and sign, an integer and/or fractional digit
run, and an optional decimal exponent. The special forms (inf, nan) are
outside the modelled fragment. -/
def parsePyFloat (s : String) : Option Rat :=
  let cs := s.data.dropWhile (fun c => c = ' ')
  let cs := (cs.reverse.dropWhile (fun c => c = ' ')).reverse
  let p : Int × List Char :=
    match cs with
    | '-' :: rest => (-1, rest)
    | '+' :: rest => (1, rest)
    | _ => (1, cs)
  let ip := p.2.takeWhile (fun c => c.isDigit)
  let afterInt := p.2.dropWhile (fun c => c.isDigit)
  let q : List Char × List Char :=
    match afterInt with
    | '.' :: rest => (rest.takeWhile (fun c => c.isDigit), rest.dropWhile (fun c => c.isDigit))
    | _ => ([], afterInt)
  if ip = [] ∧ q.1 = [] then none
  else
    let base : Rat := (p.1 * (digitsToNat (ip ++ q.1) : Int) : Int) /
      ((10 : Rat) ^ q.1.length)
    match q.2 with
    | [] => some base
    | c :: rest =>
      if c = 'e' ∨ c = 'E' then
        let ep : Int × List Char :=
          match rest with
          | '-' :: r => (-1, r)
          | '+' :: r => (1, r)
          | _ => (1, rest)
        if ep.2 ≠ [] ∧ ep.2.all (fun c => c.isDigit) then
          some (base * (10 : Rat) ^ (ep.1 * (digitsToNat ep.2 : Int)))
        else none
      else none

/-- Largest exponent reachable from `e` with `base ^ exponent ≤ q`, found
by upward search carrying the current power; for `1 ≤ q` and fuel 1200 the
search covers the whole double range. -/
def floorLogUp (base : Nat) (q : Rat) : Nat → Nat → Rat → Nat
  | 0, e, _ => e
  | fuel + 1, e, p =>
    if p * (base : Rat) ≤ q then floorLogUp base q fuel (e + 1) (p * (base : Rat)) else e

/-- Number of upward base-multiplications needed to bring `cur` to at
least 1; for `0 < q < 1` this yields the negated floor logarithm. -/
def negLogUp (base : Nat) : Nat → Rat → Nat → Nat
  | 0, _, k => k
  | fuel + 1, cur, k =>
    if 1 ≤ cur then k else negLogUp base fuel (cur * (base : Rat)) (k + 1)

/-- Floor logarithm of a positive rational. -/
def floorLog (base : Nat) (q : Rat) : Int :=
  if 1 ≤ q then (floorLogUp base q 1200 0 1 : Int)
  else -(negLogUp base 1200 q 0 : Int)

/-- Round to the nearest integer, ties to even. -/
def roundHalfEven (x : Rat) : Int :=
  let f := x.floor
  let r := x - (f : Rat)
  if r < 1 / 2 then f
  else if 1 / 2 < r then f + 1
  else if f % 2 = 0 then f else f + 1

/-- Exact rational value of the IEEE binary64 nearest to `q` (53-bit
significand, round half to even). Subnormal underflow and overflow are
outside the modelled fragment; coordinate magnitudes are normal. -/
def nearestDouble (q : Rat) : Rat :=
  if q = 0 then 0
  else
    let a := |q|
    let e : Int := floorLog 2 a - 52
    let m := roundHalfEven (a * (2 : Rat) ^ (-e))
    let m2 : Int := if m = 2 ^ 53 then 2 ^ 52 else m
    let e2 : Int := if m = 2 ^ 53 then e + 1 else e
    (if q < 0 then -1 else 1) * (m2 : Rat) * (2 : Rat) ^ e2

/-- Strip trailing zero digits. -/
def stripTrailingZeros (ds : List Char) : List Char :=
  (ds.reverse.dropWhile (fun c => c = '0')).reverse

/-- Python 2 `str(float)` on the exact value of a double: 12 significant
digits (`%.12g`), trailing zeros stripped, a trailing `.0` kept for
integral values; positional notation for decimal exponents in [-4, 12),
scientific notation otherwise. -/
def pyFloatStr (q : Rat) : String :=
  if q = 0 then "0.0"
  else
    let sign := if q < 0 then "-" else ""
    let a := |q|
    let e0 := floorLog 10 a
    let scaled := roundHalfEven (a * (10 : Rat) ^ ((11 : Int) - e0))
    let digits : Int := if scaled = 10 ^ 12 then 10 ^ 11 else scaled
    let e1 : Int := if scaled = 10 ^ 12 then e0 + 1 else e0
    let ds := Nat.toDigits 10 digits.toNat
    if e1 < -4 ∨ 12 ≤ e1 then
      let frac := stripTrailingZeros (ds.drop 1)
      let mant := String.mk (ds.take 1) ++
        (if frac = [] then "" else "." ++ String.mk frac)
      let es := Nat.toDigits 10 (if e1 < 0 then -e1 else e1).toNat
      let es2 := if es.length < 2 then '0' :: es else es
      sign ++ mant ++ "e" ++ (if e1 < 0 then "-" else "+") ++ String.mk es2
    else if 0 ≤ e1 then
      let ip := ds.take (e1.toNat + 1)
      let fp := stripTrailingZeros (ds.drop (e1.toNat + 1))
      sign ++ String.mk ip ++ "." ++ (if fp = [] then "0" else String.mk fp)
    else
      let fp := stripTrailingZeros ds
      sign ++ "0." ++ String.mk (List.replicate ((-e1).toNat - 1) '0') ++
        String.mk fp

/-- Function `transform` (lines 132 to 159), in source evaluation order: the
combined date-time string (with the sentinel time N replaced by the empty
string) is built from the Data and Hora columns of the record and passed to
the external dateutil parse, pytz localize and isoformat steps, which are
abstracted as `parseLocalizeIso`; the geometry literal interpolates
Python `float` of the longitude and latitude columns; the `data` field is
`construct_record_data(record, vehicles, people)` — which, against the
parameter names of `construct_record_data`, puts the vehicles rows in the
persons position and the people rows in the vehicles position (line 152). -/
def transform (parseLocalizeIso : String → Except PyErr String) (uuid : Nat → String)
    (record : PyRow) (vehicles people : List PyRow) (schema_id : String) :
    Except PyErr Val :=
  match rowGet record "Data" with
  | none => .error .keyError
  | some dateS =>
    match rowGet record "Hora" with
    | none => .error .keyError
    | some horaS =>
      match parseLocalizeIso (dateS ++ " " ++ (if horaS = "N" then "" else horaS)) with
      | .error e => .error e
      | .ok occurred =>
        match rowGet record "Longitude" with
        | none => .error .keyError
        | some lonS =>
          match parsePyFloat lonS with
          | none => .error .valueError
          | some lon =>
            match rowGet record "Latitude" with
            | none => .error .keyError
            | some latS =>
              match parsePyFloat latS with
              | none => .error .valueError
              | some lat =>
                match construct_record_data uuid record vehicles people with
                | .error e => .error e
                | .ok data =>
                  .ok (.obj [("data", data), ("schema", .s schema_id),
                    ("occurred_from", .s occurred), ("occurred_to", .s occurred),
                    ("geom", .s ("POINT (" ++ pyFloatStr (nearestDouble lon) ++ " " ++
                      pyFloatStr (nearestDouble lat) ++ ")"))])

/-- Association-list lookup inside an object value. -/
def lookupPairs : List (String × Val) → String → Option Val
  | [], _ => none
  | (q, v) :: rest, k => if q = k then some v else lookupPairs rest k

/-- Field lookup on an object value. -/
def lookupField : Val → String → Option Val
  | .obj fs, k => lookupPairs fs k
  | _, _ => none

/-- The geom field of a successful transform result. -/
def geomOf (r : Except PyErr Val) : Option Val :=
  match r with
  | .ok o => lookupField o "geom"
  | .error _ => none

/-- C9: for an anchor row whose Longitude column holds the string -46.6
and whose Latitude column holds the string -23.5, any successful transform
emits the geometry text POINT (-46.6 -23.5): longitude first, then
latitude, each rendered through the Python float round trip. -/
theorem transform_geom_point (parseLocalizeIso : String → Except PyErr String)
    (uuid : Nat → String) (record : PyRow) (vehicles people : List PyRow)
    (schema_id : String)
    (hlon : rowGet record "Longitude" = some "-46.6")
    (hlat : rowGet record "Latitude" = some "-23.5")
    (hok : (transform parseLocalizeIso uuid record vehicles people schema_id).isOk = true) :
    geomOf (transform parseLocalizeIso uuid record vehicles people schema_id) =
      some (.s "POINT (-46.6 -23.5)") := by
  cases hData : rowGet record "Data" with
  | none =>
    simp only [transform, hData, Except.toBool] at hok
    exact Bool.noConfusion hok
  | some dateS =>
  cases hHora : rowGet record "Hora" with
  | none =>
    simp only [transform, hData, hHora, Except.toBool] at hok
    exact Bool.noConfusion hok
  | some horaS =>
  cases hPli : parseLocalizeIso (dateS ++ " " ++ if horaS = "N" then "" else horaS) with
  | error e =>
    simp only [transform, hData, hHora, hPli, Except.toBool] at hok
    exact Bool.noConfusion hok
  | ok occurred =>
  have hplon : parsePyFloat "-46.6" = some (Rat.divInt (-233) 5) := by decide
  have hplat : parsePyFloat "-23.5" = some (Rat.divInt (-47) 2) := by decide
  cases hCrd : construct_record_data uuid record vehicles people with
  | error e =>
    simp only [transform, hData, hHora, hPli, hlon, hplon, hlat, hplat, hCrd,
      Except.toBool] at hok
    exact Bool.noConfusion hok
  | ok data =>
  have hgeom1 : pyFloatStr (nearestDouble (Rat.divInt (-233) 5)) = "-46.6" := by decide
  have hgeom2 : pyFloatStr (nearestDouble (Rat.divInt (-47) 2)) = "-23.5" := by decide
  simp only [transform, hData, hHora, hPli, hlon, hplon, hlat, hplat, hCrd,
    geomOf, lookupField, lookupPairs, hgeom1, hgeom2]
  rfl

/-- Witness for C9: a concrete anchor row on which the transform succeeds
end to end. -/
theorem transform_geom_point_witness :
    (rowGet [("CdAcidente", "1"), ("Data", "2020-01-01"), ("Hora", "10:00"),
        ("Longitude", "-46.6"), ("Latitude", "-23.5")] "Longitude" = some "-46.6" ∧
      rowGet [("CdAcidente", "1"), ("Data", "2020-01-01"), ("Hora", "10:00"),
        ("Longitude", "-46.6"), ("Latitude", "-23.5")] "Latitude" = some "-23.5" ∧
      (transform (fun s => Except.ok s) (fun _ => "u")
        [("CdAcidente", "1"), ("Data", "2020-01-01"), ("Hora", "10:00"),
          ("Longitude", "-46.6"), ("Latitude", "-23.5")] [] [] "S").isOk = true) ∧
    geomOf (transform (fun s => Except.ok s) (fun _ => "u")
        [("CdAcidente", "1"), ("Data", "2020-01-01"), ("Hora", "10:00"),
          ("Longitude", "-46.6"), ("Latitude", "-23.5")] [] [] "S") =
      some (.s "POINT (-46.6 -23.5)") :=
  ⟨⟨by decide, by decide, by decide⟩,
    transform_geom_point (fun s => Except.ok s) (fun _ => "u")
      [("CdAcidente", "1"), ("Data", "2020-01-01"), ("Hora", "10:00"),
        ("Longitude", "-46.6"), ("Latitude", "-23.5")] [] [] "S"
      (by decide) (by decide) (by decide)⟩

/-! ### The per-record loop of `main` (lines 233 to 266) -/

/-- The anchor source name, files[record] at line 235. -/
def files_record : String := "acidentes.csv"

/-- The vehicles source name, files[vehicles] at line 236. -/
def files_vehicles : String := "veiculos.csv"

/-- The people source name, files[people] at line 237. -/
def files_people : String := "vitimas.csv"

/-- The join projection of `main`: the CdAcidente column (line 244). The
modelled fragment assumes every row carries the join column, a binding
input precondition of the pipeline. -/
def joinCd (r : PyRow) : String := (rowGet r "CdAcidente").getD ""

/-- Observable effects of the per-record loop. -/
inductive Effect where
  | printed (s : String)
  | posted (url : String) (body : String) (contentType : String)

/-- Whether an effect is an HTTP post to the store. -/
def isPosted : Effect → Bool
  | .posted _ _ _ => true
  | .printed _ => false

/-- The loop body of `main` over the collated groups (lines 244 to 265).
The lookup record_set[files[record]] on the `defaultdict(list)` yields `[]` for
an absent source, so the `[0]` subscript raises IndexError; the
`try/except KeyError` of lines 249 to 255 only catches KeyError. After a
successful transform the script prints the JSON dump (serializer
abstracted as `dumps`) and immediately `continue`s (lines 261 to 262), so
the `load(record_data, ...)` call on line 264 is unreachable and emits no
effect. An uncaught exception aborts the whole run. -/
def main_loop (parseLocalizeIso : String → Except PyErr String) (uuid : Nat → String)
    (dumps : Val → String) (schema_id : String) :
    List (List (String × List PyRow)) → Except PyErr (List Effect)
  | [] => .ok []
  | rs :: rest =>
    match
      (match dget rs files_record with
        | [] => Except.error PyErr.indexError
        | r :: _ => Except.ok r : Except PyErr PyRow)
    with
    | .error e =>
      if e = .keyError then main_loop parseLocalizeIso uuid dumps schema_id rest
      else .error e
    | .ok record =>
      match transform parseLocalizeIso uuid record (dget rs files_vehicles)
          (dget rs files_people) schema_id with
      | .error e => .error e
      | .ok record_data =>
        match main_loop parseLocalizeIso uuid dumps schema_id rest with
        | .error e => .error e
        | .ok effects => .ok (.printed (dumps record_data) :: effects)

/-- Lines 244 to 266 end to end: collate the parsed CSV files on the
CdAcidente column and run the per-record loop. -/
def main_pipeline (parseLocalizeIso : String → Except PyErr String) (uuid : Nat → String)
    (dumps : Val → String) (schema_id : String)
    (files : List (String × List PyRow)) : Except PyErr (List Effect) :=
  main_loop parseLocalizeIso uuid dumps schema_id
    (collate_multiple_files joinCd files)

/-- Effects of a run; an aborted run has delivered none of its pending
effects beyond those modelled (the error value carries the abort). -/
def effectsOf (r : Except PyErr (List Effect)) : List Effect :=
  match r with
  | .ok es => es
  | .error _ => []

/-- C1 (refuted as stated): the per-record loop never posts anything to
the remote store — the `print(...)` and `continue` of lines 261 to 262
leave the `load(...)` call on line 264 unreachable, for the loop over any
groups and for the full pipeline over any parsed files. -/
theorem load_never_called :
    ∀ (parseLocalizeIso : String → Except PyErr String) (uuid : Nat → String)
      (dumps : Val → String) (schema_id : String),
      (∀ groups : List (List (String × List PyRow)),
        (effectsOf (main_loop parseLocalizeIso uuid dumps schema_id groups)).countP
          isPosted = 0) ∧
      ∀ files : List (String × List PyRow),
        (effectsOf (main_pipeline parseLocalizeIso uuid dumps schema_id files)).countP
          isPosted = 0 := by
  intro p u d sid
  have hloop : ∀ groups, (effectsOf (main_loop p u d sid groups)).countP isPosted = 0 := by
    intro groups
    induction groups with
    | nil => rfl
    | cons rs rest ih =>
      rw [main_loop]
      cases dget rs files_record with
      | nil => simp [effectsOf]
      | cons r rows =>
        simp only []
        cases htr : transform p u r (dget rs files_vehicles) (dget rs files_people) sid with
        | error e => simp [effectsOf, htr]
        | ok record_data =>
          cases hrest : main_loop p u d sid rest with
          | error e => simp [effectsOf, htr, hrest]
          | ok effects =>
            rw [hrest] at ih
            simp only [effectsOf] at ih
            simp only [htr, hrest, effectsOf, List.countP_cons, isPosted]
            simpa using ih
  exact ⟨hloop, fun files => hloop _⟩

/-- C4 (refuted as stated): a grouped record with no anchor-source rows
does not lead to a logged skip — the defaultdict lookup returns `[]`, the
`[0]` subscript raises IndexError, the `except KeyError` clause does not
catch it, and the run aborts without processing the remaining groups. The
input is the collated result of an empty `acidentes.csv` and a
`veiculos.csv` holding one row with CdAcidente 1, followed by a further
well-formed group that is never reached. -/
theorem anchorless_group_aborts :
    ∀ (parseLocalizeIso : String → Except PyErr String) (uuid : Nat → String)
      (dumps : Val → String) (schema_id : String),
      main_pipeline parseLocalizeIso uuid dumps schema_id
          [(files_record, []), (files_vehicles, [[("CdAcidente", "1")]]),
            (files_people, [])] = .error .indexError ∧
      main_loop parseLocalizeIso uuid dumps schema_id
          [[(files_vehicles, [[("CdAcidente", "1")]])],
            [(files_record, [[("CdAcidente", "2"), ("Data", "2020-01-01"),
              ("Hora", "10:00"), ("Longitude", "-46.6"), ("Latitude", "-23.5")]])]] =
        .error .indexError := by
  intro p u d sid
  exact ⟨rfl, rfl⟩

/-! ### The retrying loader `load` (lines 162 to 179) -/

/-- An HTTP POST request as issued by `load`. -/
structure Request where
  url : String
  body : String
  headers : List (String × String)

/-- Python `headers.setdefault(key, value)` (line 170): add the pair only when
the key is absent. -/
def setdefault (headers : List (String × String)) (key value : String) :
    List (String × String) :=
  if (headers.map Prod.fst).contains key then headers else headers ++ [(key, value)]

/-- The one request `load` issues on every attempt: url api + /records/
(line 167), body `json.dumps(obj)` (serializer abstracted as `dumps`,
line 168), headers with content-type defaulted to application/json
(lines 169 to 170); all computed once before the loop. -/
def loadRequest (dumps : Val → String) (obj : Val) (api : String)
    (headers : List (String × String)) : Request :=
  { url := api ++ "/records/", body := dumps obj,
    headers := setdefault headers "content-type" "application/json" }

/-- The `while True` loop of `load` (lines 172 to 179), run against a sink
scripted to answer successive attempts with the statuses `responses`:
returns the requests issued and whether the function returned. It returns
exactly on the first 201; on any other status it logs and re-enters the
loop, so when no 201 is scripted the loop is still running after issuing
one identical request per scripted response. The fixed `sleep(0.2)` is
real time and not modelled. -/
def load (dumps : Val → String) (obj : Val) (api : String)
    (headers : List (String × String)) : List Nat → List Request × Bool
  | [] => ([], false)
  | status :: rest =>
    if status = 201 then ([loadRequest dumps obj api headers], true)
    else
      let p := load dumps obj api headers rest
      (loadRequest dumps obj api headers :: p.1, p.2)

/-- C5: the loader returns exactly when an attempt is answered 201, always
re-issuing the identical request; against a sink whose first two answers
are non-success and whose third is 201 it issues exactly three identical
requests and returns. -/
theorem load_retries_until_201 :
    ∀ (dumps : Val → String) (obj : Val) (api : String)
      (headers : List (String × String)) (responses : List Nat),
      ((load dumps obj api headers responses).2 = true ↔ 201 ∈ responses) ∧
      (∀ r ∈ (load dumps obj api headers responses).1,
        r = loadRequest dumps obj api headers) ∧
      (201 ∉ responses →
        (load dumps obj api headers responses).1.length = responses.length ∧
        (load dumps obj api headers responses).2 = false) ∧
      ∀ s1 s2 : Nat, s1 ≠ 201 → s2 ≠ 201 →
        (load dumps obj api headers [s1, s2, 201]).1.length = 3 ∧
        (load dumps obj api headers [s1, s2, 201]).2 = true := by
  intro dumps obj api headers responses
  refine ⟨?_, ?_, ?_, ?_⟩
  · induction responses with
    | nil => simp [load]
    | cons status rest ih =>
      by_cases h : status = 201
      · subst h
        simp [load]
      · simp [load, h, ih]
        exact fun hc => absurd hc.symm h
  · induction responses with
    | nil => simp [load]
    | cons status rest ih =>
      intro r hr
      by_cases h : status = 201
      · subst h
        simp [load] at hr
        exact hr
      · simp [load, h] at hr
        rcases hr with rfl | hr
        · rfl
        · exact ih r hr
  · induction responses with
    | nil => simp [load]
    | cons status rest ih =>
      intro hmem
      simp only [List.mem_cons] at hmem
      push_neg at hmem
      have h201 : ¬status = 201 := fun hc => hmem.1 hc.symm
      have := ih hmem.2
      simp [load, h201, this]
  · intro s1 s2 h1 h2
    simp [load, h1, h2]

/-- Witness for C5: a concrete sink answering 500, 500, 201. -/
theorem load_retries_until_201_witness :
    ((500 : Nat) ≠ 201 ∧ (500 : Nat) ≠ 201) ∧
      (load (fun _ => "{}") (.obj []) "http://localhost:7000/api" [] [500, 500, 201]).1.length = 3 ∧
      (load (fun _ => "{}") (.obj []) "http://localhost:7000/api" [] [500, 500, 201]).2 = true :=
  ⟨⟨by decide, by decide⟩,
    (load_retries_until_201 (fun _ => "{}") (.obj []) "http://localhost:7000/api" []
      [500, 500, 201]).2.2.2 500 500 (by decide) (by decide)⟩

/-- A grouped record as the collator builds it for an id carried by the
anchor row, the vehicle rows and the people rows. -/
def mkGroup (rec : PyRow) (veh ppl : List PyRow) : List (String × List PyRow) :=
  [(files_record, [rec]), (files_vehicles, veh), (files_people, ppl)]

theorem formatFields_error (data : PyRow) :
    ∀ mapping : List (String × String × (String → Except PyErr Val)),
      (∃ m ∈ mapping, ∃ v e, rowGet data m.1 = some v ∧ m.2.2 v = .error e) →
      ∃ e, formatFields data mapping = .error e := by
  intro mapping
  induction mapping with
  | nil => simp
  | cons m rest ih =>
    intro hex
    obtain ⟨m0, hm0, v, e, hget, hcast⟩ := hex
    obtain ⟨ck, dk, cf⟩ := m
    rcases List.mem_cons.mp hm0 with rfl | hm0
    · simp only at hget hcast
      refine ⟨e, ?_⟩
      rw [formatFields]
      simp only [hget, hcast]
    · rw [formatFields]
      cases hg : rowGet data ck with
      | none =>
        simp only []
        exact ih ⟨m0, hm0, v, e, hget, hcast⟩
      | some w =>
        simp only []
        cases hc : cf w with
        | error e2 =>
          simp only []
          exact ⟨e2, rfl⟩
        | ok val =>
          simp only []
          obtain ⟨e3, he3⟩ := ih ⟨m0, hm0, v, e, hget, hcast⟩
          rw [he3]
          exact ⟨e3, rfl⟩

/-- C6: a cast that raises on a value present in the row makes
`format_record_object` raise rather than emit an object, and an exception
escaping the transform aborts the whole run: the loop neither skips the
record nor reaches the remaining groups. -/
theorem cast_failure_aborts_run :
    (∀ (uuidVal : String) (data : PyRow)
      (mapping : List (String × String × (String → Except PyErr Val))),
      (∃ m ∈ mapping, ∃ v e, rowGet data m.1 = some v ∧ m.2.2 v = .error e) →
      ∃ e, format_record_object uuidVal data mapping = .error e) ∧
    (∀ (uuid : Nat → String) (record : PyRow) (persons vehicles : List PyRow) (e : PyErr),
      format_record_object (uuid 0) record incident_mapping = .error e →
      construct_record_data uuid record persons vehicles = .error e) ∧
    (∀ (parseLocalizeIso : String → Except PyErr String) (uuid : Nat → String)
      (record : PyRow) (vehicles people : List PyRow) (schema_id : String)
      (dateS horaS occurred lonS latS : String) (lon lat : Rat) (e : PyErr),
      rowGet record "Data" = some dateS → rowGet record "Hora" = some horaS →
      parseLocalizeIso (dateS ++ " " ++ if horaS = "N" then "" else horaS) = .ok occurred →
      rowGet record "Longitude" = some lonS → parsePyFloat lonS = some lon →
      rowGet record "Latitude" = some latS → parsePyFloat latS = some lat →
      construct_record_data uuid record vehicles people = .error e →
      transform parseLocalizeIso uuid record vehicles people schema_id = .error e) ∧
    ∀ (parseLocalizeIso : String → Except PyErr String) (uuid : Nat → String)
      (dumps : Val → String) (schema_id : String) (rec : PyRow)
      (veh ppl : List PyRow) (rest : List (List (String × List PyRow))) (e : PyErr),
      transform parseLocalizeIso uuid rec veh ppl schema_id = .error e →
      main_loop parseLocalizeIso uuid dumps schema_id (mkGroup rec veh ppl :: rest) =
        .error e := by
  refine ⟨?_, ?_, ?_, ?_⟩
  · intro uuidVal data mapping hex
    obtain ⟨e, he⟩ := formatFields_error data mapping hex
    exact ⟨e, by rw [format_record_object, he]⟩
  · intro uuid record persons vehicles e hfmt
    rw [construct_record_data, hfmt]
  · intro p u record veh ppl sid dateS horaS occurred lonS latS lon lat e
      hData hHora hPli hLonS hplon hLatS hplat hCrd
    simp only [transform, hData, hHora, hPli, hLonS, hplon, hLatS, hplat, hCrd]
  · intro p u d sid rec veh ppl rest e htr
    have h1 : dget (mkGroup rec veh ppl) files_record = [rec] := rfl
    have h2 : dget (mkGroup rec veh ppl) files_vehicles = veh := rfl
    have h3 : dget (mkGroup rec veh ppl) files_people = ppl := rfl
    rw [main_loop, h1, h2, h3]
    simp only [htr]

/-- Witness for C6: the row holds the empty-string column with a value the
int cast rejects, through the incident details table. -/
theorem cast_failure_aborts_run_witness :
    (∃ m ∈ incident_mapping, ∃ v e,
      rowGet [("", "abc")] m.1 = some v ∧ m.2.2 v = .error e) ∧
    ∃ e, format_record_object "u" [("", "abc")] incident_mapping = .error e :=
  ⟨⟨("", "Log1", pyInt), List.mem_cons.mpr (Or.inl rfl), "abc", .valueError, rfl, rfl⟩,
    cast_failure_aborts_run.1 "u" [("", "abc")] incident_mapping
      ⟨("", "Log1", pyInt), List.mem_cons.mpr (Or.inl rfl), "abc", .valueError, rfl, rfl⟩⟩

/-! ### The scoped multi-file reader `open_many` (lines 25 to 33) -/

/-- Function `open_many` observed at scope exit. Each planned open is a path with
its outcome: `some h` opens handle `h`, `none` raises IOError. The dict
comprehension of line 28 evaluates the opens left to right before the
`try` is entered; `openAll` returns the opened handlers, or on a raise the
handles that were already open (which nothing closes, since the
`finally` of lines 31 to 33 only runs once the comprehension succeeded). -/
def openAll : List (String × Option Nat) → Except (List Nat) (List (String × Nat))
  | [] => .ok []
  | (_, none) :: _ => .error []
  | (p, some h) :: rest =>
    match openAll rest with
    | .ok hs => .ok ((p, h) :: hs)
    | .error leaked => .error (h :: leaked)

/-- The state when the `open_many` scope exits: which handles are still
open, and whether an exception escaped. When every open succeeds the
`finally` closes every handler whether or not the body raised; when an
open raises partway the earlier handles stay open and the exception
escapes. -/
def open_many (opens : List (String × Option Nat)) (bodyRaises : Bool) :
    List Nat × Bool :=
  match openAll opens with
  | .error leaked => (leaked, true)
  | .ok _ => ([], bodyRaises)

/-- C7 counterexample: with two paths of which the second fails to open,
the first handle is still open when the scope exits — refuting the claim
that every opened handle is closed even when an open fails partway. -/
theorem open_many_leak_counterexample :
    ¬(open_many [("a.csv", some 0), ("b.csv", none)] false).1 = [] := by decide

/-- C7 amended: when every path opens successfully, every opened handle is
closed by the time the scope exits, whether the body of the caller completed
normally or raised. -/
theorem open_many_closes_all_on_success :
    ∀ (opens : List (String × Option Nat)) (bodyRaises : Bool),
      (∀ o ∈ opens, o.2.isSome) → (open_many opens bodyRaises).1 = [] := by
  intro opens bodyRaises hall
  have hok : ∃ hs, openAll opens = .ok hs := by
    induction opens with
    | nil => exact ⟨[], rfl⟩
    | cons o rest ih =>
      obtain ⟨p, ho⟩ := o
      cases ho with
      | none =>
        have := hall (p, none) (List.mem_cons_self _ _)
        simp at this
      | some h =>
        obtain ⟨hs, hhs⟩ := ih fun o ho => hall o (List.mem_cons_of_mem _ ho)
        exact ⟨(p, h) :: hs, by rw [openAll, hhs]⟩
  obtain ⟨hs, hhs⟩ := hok
  rw [open_many, hhs]

/-- Witness for C7 amended: two successful opens, body raising. -/
theorem open_many_closes_all_on_success_witness :
    (∀ o ∈ [("a.csv", some 0), ("b.csv", some 1)], (Prod.snd o).isSome) ∧
      (open_many [("a.csv", some 0), ("b.csv", some 1)] true).1 = [] :=
  ⟨by decide, open_many_closes_all_on_success
    [("a.csv", some 0), ("b.csv", some 1)] true (by decide)⟩

/-! ### Transparency of empty sources -/

theorem initEntries_skip_empty {Row : Type} (l1 l2 : List (String × List Row)) (k : String) :
    initEntries (l1 ++ (k, ([] : List Row)) :: l2) = initEntries (l1 ++ l2) := by
  rw [initEntries, initEntries, List.filterMap_append, List.filterMap_append,
    List.filterMap_cons]

/-- C8: inserting a source file with zero data rows anywhere in the input
set changes nothing: the merged stream, the collated groups and the full
pipeline output are identical to the run without that file (the file is
dropped when its first row is requested, line 45 to 47). -/
theorem empty_file_transparent :
    (∀ (Row : Type) (joinOf : Row → String) (l1 l2 : List (String × List Row)) (k : String),
      merge_sort_files joinOf (l1 ++ (k, []) :: l2) = merge_sort_files joinOf (l1 ++ l2) ∧
      collate_multiple_files joinOf (l1 ++ (k, []) :: l2) =
        collate_multiple_files joinOf (l1 ++ l2)) ∧
    ∀ (parseLocalizeIso : String → Except PyErr String) (uuid : Nat → String)
      (dumps : Val → String) (schema_id : String)
      (l1 l2 : List (String × List PyRow)) (k : String),
      main_pipeline parseLocalizeIso uuid dumps schema_id (l1 ++ (k, []) :: l2) =
        main_pipeline parseLocalizeIso uuid dumps schema_id (l1 ++ l2) := by
  have hmerge : ∀ (Row : Type) (joinOf : Row → String)
      (l1 l2 : List (String × List Row)) (k : String),
      merge_sort_files joinOf (l1 ++ (k, []) :: l2) = merge_sort_files joinOf (l1 ++ l2) := by
    intro Row joinOf l1 l2 k
    rw [merge_sort_files, merge_sort_files, mergeLoop, mergeLoop, initEntries_skip_empty]
  refine ⟨fun Row joinOf l1 l2 k => ⟨hmerge Row joinOf l1 l2 k, ?_⟩, ?_⟩
  · rw [collate_multiple_files, collate_multiple_files, hmerge]
  · intro p u d sid l1 l2 k
    rw [main_pipeline, main_pipeline, collate_multiple_files, collate_multiple_files,
      hmerge]

/-! ### The record-construction tables map no real columns -/

theorem incident_mapping_keys : ∀ m ∈ incident_mapping, m.1 = "" := by
  intro m hm
  fin_cases hm <;> rfl

theorem person_mapping_keys : ∀ m ∈ person_mapping, m.1 = "" := by
  intro m hm
  fin_cases hm <;> rfl

theorem vehicle_mapping_keys : ∀ m ∈ vehicle_mapping, m.1 = "" := by
  intro m hm
  fin_cases hm <;> rfl

theorem formatFields_all_absent (data : PyRow) :
    ∀ mapping : List (String × String × (String → Except PyErr Val)),
      (∀ m ∈ mapping, rowGet data m.1 = none) →
      formatFields data mapping = .ok [] := by
  intro mapping
  induction mapping with
  | nil => intro _; rfl
  | cons m rest ih =>
    intro hall
    obtain ⟨ck, dk, cf⟩ := m
    rw [formatFields]
    have hck : rowGet data ck = none := by
      have := hall (ck, dk, cf) (List.mem_cons_self _ _)
      simpa using this
    rw [hck]
    exact ih fun q hq => hall q (List.mem_cons_of_mem _ hq)

theorem format_record_object_absent (uuidVal : String) (data : PyRow)
    (mapping : List (String × String × (String → Except PyErr Val)))
    (h : ∀ m ∈ mapping, rowGet data m.1 = none) :
    format_record_object uuidVal data mapping = .ok [("_localId", .s uuidVal)] := by
  rw [format_record_object, formatFields_all_absent data mapping h]
  rfl

/-- The sub-block objects that remain when no source column is mapped:
one `_localId` per input row, with consecutive fresh uuids from `base`. -/
def localIdObjs (uuid : Nat → String) (base n : Nat) : List Val :=
  (List.range n).map fun i => .obj [("_localId", .s (uuid (base + i)))]

theorem localIdObjs_succ (uuid : Nat → String) (base n : Nat) :
    localIdObjs uuid base (n + 1) =
      .obj [("_localId", .s (uuid base))] :: localIdObjs uuid (base + 1) n := by
  rw [localIdObjs, localIdObjs, List.range_succ_eq_map, List.map_cons, List.map_map]
  congr 1
  apply List.map_congr_left
  intro i _
  have harith : base + (i + 1) = base + 1 + i := by omega
  simp [Function.comp, harith]

theorem formatRecordList_localIds (uuid : Nat → String)
    (mapping : List (String × String × (String → Except PyErr Val)))
    (hmap : ∀ m ∈ mapping, m.1 = "") :
    ∀ (ps : List PyRow) (base : Nat), (∀ p ∈ ps, rowGet p "" = none) →
      formatRecordList uuid base mapping ps = .ok (localIdObjs uuid base ps.length) := by
  intro ps
  induction ps with
  | nil => intro base _; rfl
  | cons p ps ih =>
    intro base hall
    have h1 : format_record_object (uuid base) p mapping =
        .ok [("_localId", .s (uuid base))] := by
      apply format_record_object_absent
      intro m hm
      rw [hmap m hm]
      exact hall p (List.mem_cons_self _ _)
    rw [formatRecordList, h1]
    simp only []
    rw [ih (base + 1) fun q hq => hall q (List.mem_cons_of_mem _ hq)]
    simp only [List.length_cons, localIdObjs_succ]

/-- C10: every triple of the three record-construction tables names the
empty string as its source column, so for rows that do not carry an
empty-string column nothing is mapped: the primary block and every
person/vehicle sub-block hold exactly the one generated `_localId` key. -/
theorem mapping_tables_empty_source_columns :
    (∀ m ∈ incident_mapping ++ person_mapping ++ vehicle_mapping, m.1 = "") ∧
    ∀ (uuid : Nat → String) (record : PyRow) (persons vehicles : List PyRow),
      rowGet record "" = none → (∀ p ∈ persons, rowGet p "" = none) →
      (∀ v ∈ vehicles, rowGet v "" = none) →
      construct_record_data uuid record persons vehicles =
        .ok (.obj [("driverIncidentDetails", .obj [("_localId", .s (uuid 0))]),
          ("driverPerson", .list (localIdObjs uuid 1 persons.length)),
          ("driverVehicle",
            .list (localIdObjs uuid (1 + persons.length) vehicles.length))]) := by
  constructor
  · intro m hm
    rcases List.mem_append.mp hm with h | h
    · rcases List.mem_append.mp h with h2 | h2
      · exact incident_mapping_keys m h2
      · exact person_mapping_keys m h2
    · exact vehicle_mapping_keys m h
  · intro uuid record persons vehicles hrec hps hvs
    have hdet := format_record_object_absent (uuid 0) record incident_mapping
      fun m hm => by rw [incident_mapping_keys m hm]; exact hrec
    have hp := formatRecordList_localIds uuid person_mapping person_mapping_keys
      persons 1 hps
    have hv := formatRecordList_localIds uuid vehicle_mapping vehicle_mapping_keys
      vehicles (1 + persons.length) hvs
    rw [construct_record_data, hdet]
    simp only []
    rw [hp]
    simp only []
    rw [hv]

/-- Witness for C10: a one-person, zero-vehicle group whose rows carry
ordinary columns only. -/
theorem mapping_tables_empty_source_columns_witness :
    (rowGet [("CdAcidente", "1")] "" = none ∧
      (∀ p ∈ [[("Sexo", "F")]], rowGet p "" = none) ∧
      ∀ v ∈ ([] : List PyRow), rowGet v "" = none) ∧
    construct_record_data (fun _ => "u") [("CdAcidente", "1")] [[("Sexo", "F")]] [] =
      .ok (.obj [("driverIncidentDetails", .obj [("_localId", .s "u")]),
        ("driverPerson", .list (localIdObjs (fun _ => "u") 1 1)),
        ("driverVehicle", .list (localIdObjs (fun _ => "u") (1 + 1) 0))]) :=
  ⟨⟨by decide, by decide, by decide⟩,
    mapping_tables_empty_source_columns.2 (fun _ => "u") [("CdAcidente", "1")]
      [[("Sexo", "F")]] [] (by decide) (by decide) (by decide)⟩

end Driver
